import Mathlib

/-!
Shallow embedding of the go-brew tea-timer core (Spectari-code/go-brew):
the configuration (`config.go`), the model (`model.go`) and the Bubbletea
update function (`main.go`, `Update`), together with theorems checking the
specification's claims about the timer state machine.

Go `time.Duration` is an `int64` count of nanoseconds; it is modelled as
`Int` (no overflow is reachable for the durations involved). Go `int` is
modelled as `Int`, and Go's `%` on `int` (truncated remainder) as
`Int.tmod`. Bubbletea messages are modelled by an explicit `Msg` type and
the commands the program returns (`nil`, `tea.Quit`, `tick()`, the
completion-alert command) by an explicit `Cmd` type.
-/

namespace GoBrew

/-- Go `time.Duration`: int64 nanoseconds, modelled as `Int`. -/
abbrev Duration := Int

/-- Go `time.Second` in nanoseconds. -/
def second : Duration := 1000000000

/-- Go `time.Minute` in nanoseconds. -/
def minute : Duration := 60 * second

/-- Constants from `config.go`. -/
def DefaultBrewTime : Duration := 4 * minute

def MinBrewTime : Duration := 30 * second

def MaxBrewTime : Duration := 30 * minute

def KeyStart : String := "s"

def KeyReset : String := "r"

def KeyQuit : String := "q"

def KeyQuitAlt : String := "ctrl+c"

def KeyPause : String := "space"

def KeyUp : String := "up"

def KeyDown : String := "down"

/-- `TimerState` from `config.go`: the four states of the brewing lifecycle. -/
inductive TimerState where
  | StateIdle
  | StateBrewing
  | StatePaused
  | StateFinished
deriving DecidableEq, Repr

export TimerState (StateIdle StateBrewing StatePaused StateFinished)

/-- `KeyBinding` from `config.go`. -/
structure KeyBinding where
  Key : String
  Desc : String
deriving DecidableEq, Repr

/-- `TeaPreset` from `config.go`. -/
structure TeaPreset where
  Name : String
  Duration : Duration
  Temp : String
  Notes : String
deriving DecidableEq, Repr

/-- `DefaultTeaPresets` from `config.go`. -/
def DefaultTeaPresets : List TeaPreset :=
  [ ⟨"Rooibos", 4 * minute, "95°C", "No bitterness, naturally sweet"⟩,
    ⟨"Green Tea", 2 * minute, "80°C", "Don't overbrew to avoid bitterness"⟩,
    ⟨"Black Tea", 3 * minute, "95°C", "Full flavor development"⟩,
    ⟨"Herbal", 5 * minute, "95°C", "Medicinal properties develop over time"⟩,
    ⟨"White Tea", 2 * minute, "75°C", "Delicate flavor, careful timing"⟩,
    ⟨"Oolong", 3 * minute, "85°C", "Complex flavors, multiple infusions possible"⟩ ]

/-- `Config` from `config.go`. The `CustomDuration` field is referenced by
`Update` in `main.go` and by the test suite (`config.CustomDuration = true`),
but the struct literal in `config.go` does not declare it and nothing under
`src/` ever assigns it; as a Go bool its zero value is `false`. -/
structure Config where
  BrewTime : Duration
  SoundEnabled : Bool
  NotifyEnabled : Bool
  CustomDuration : Bool
  KeyBindings : List KeyBinding
  Presets : List TeaPreset
deriving DecidableEq, Repr

/-- `NewConfig` from `config.go`. `CustomDuration` is not mentioned there; it
keeps the Go zero value `false`. -/
def NewConfig : Config :=
  { BrewTime := DefaultBrewTime
    SoundEnabled := true
    NotifyEnabled := true
    CustomDuration := false
    KeyBindings :=
      [ ⟨"s", "Start timer"⟩,
        ⟨KeyPause, "Pause/Resume"⟩,
        ⟨"r", "Reset timer"⟩,
        ⟨KeyUp ++ "/" ++ KeyDown, "Select preset"⟩,
        ⟨"q/ctrl+c", "Quit"⟩ ]
    Presets := DefaultTeaPresets }

/-- `Config.Validate` from `config.go` (the Go error strings interpolate the
bound values; the messages here are the fixed parts). -/
def Validate (c : Config) : Except String Unit :=
  if c.BrewTime < MinBrewTime then
    Except.error "brew time must be at least 30s"
  else if c.BrewTime > MaxBrewTime then
    Except.error "brew time cannot exceed 30m0s"
  else
    Except.ok ()

/-- `Config.ParseFlags` from `config.go`: `flag.DurationVar` registers the
`-duration` flag with the current `BrewTime` as default, and `flag.Parse`
overwrites `BrewTime` exactly when the flag is present on the command line
(modelled by the `Option Duration` argument). No other field of the
configuration is touched; in particular `CustomDuration` is never assigned. -/
def ParseFlags (c : Config) (durationFlag : Option Duration) : Config :=
  { c with BrewTime := match durationFlag with
      | some d => d
      | none => c.BrewTime }

/-- `model` from `model.go`. -/
structure Model where
  config : Config
  timer : Duration
  state : TimerState
  presetIdx : Int
  width : Int
  height : Int
deriving DecidableEq, Repr

/-- `initialModel` from `model.go`: `timer` is set to `config.BrewTime`
unconditionally; `width` and `height` keep the Go zero value `0`. -/
def initialModel (config : Config) : Model :=
  { config := config
    timer := config.BrewTime
    state := StateIdle
    presetIdx := 0
    width := 0
    height := 0 }

/-- Zero value of `TeaPreset`, used only as the `getD` default below (the Go
index expression panics instead of producing it; all theorems assume the
non-empty, in-bounds situations in which Go does not panic). -/
def zeroPreset : TeaPreset := ⟨"", 0, "", ""⟩

/-- `model.currentPreset` from `model.go`: bounds-checked indexing with
fallback to the first preset. -/
def currentPreset (m : Model) : TeaPreset :=
  if 0 ≤ m.presetIdx ∧ m.presetIdx < m.config.Presets.length then
    m.config.Presets.getD m.presetIdx.toNat zeroPreset
  else
    m.config.Presets.getD 0 zeroPreset

/-- `model.isBrewing` from `model.go`. -/
def isBrewing (m : Model) : Bool := m.state = StateBrewing

/-- `model.isPaused` from `model.go`. -/
def isPaused (m : Model) : Bool := m.state = StatePaused

/-- `model.isFinished` from `model.go`. -/
def isFinished (m : Model) : Bool := m.state = StateFinished

/-- A `tea.KeyMsg` as `Update` consumes it: whether `msg.Type == tea.KeySpace`,
and the string `msg.String()` returns. -/
structure KeyMsg where
  isSpaceKeyType : Bool
  str : String
deriving DecidableEq, Repr

/-- The messages `Update` handles: `tea.KeyMsg`, `tickMsg` (whose wall-clock
payload `Update` ignores) and `tea.WindowSizeMsg`. -/
inductive Msg where
  | key : KeyMsg → Msg
  | tick : Msg
  | windowSize : Int → Int → Msg
deriving DecidableEq, Repr

/-- The commands `Update` returns: `nil`, `tea.Quit`, `tick()` (schedule the
next one-second tick) and the asynchronous completion command (desktop
notification plus alert sound). -/
inductive Cmd where
  | none
  | quit
  | tick
  | alert
deriving DecidableEq, Repr

/-- The expression `main.go` repeats at every start/reset site
(`if m.config.CustomDuration { m.timer = m.config.BrewTime } else { m.timer =
m.currentPreset().Duration }`): the custom duration when the override is
active, else the selected preset's duration. This is the specification's
`effectiveDuration()`. -/
def effectiveDuration (m : Model) : Duration :=
  if m.config.CustomDuration then m.config.BrewTime else (currentPreset m).Duration

/-- `model.Update` from `main.go`, transcribed branch for branch. The
space-key-type check runs before the `msg.String()` switch and returns only
from the `StateBrewing` and `StatePaused` states; otherwise control falls
through to the string switch. In the `KeyStart` case, a finished model first
has its timer and state re-assigned (to `StateIdle`), then the unconditional
assignment sets the timer again and the state to `StateBrewing`. In the
`KeyUp`/`KeyDown` cases Go first mutates `m.presetIdx` and then, only when
`CustomDuration` is unset, re-reads `m.currentPreset().Duration` through the
mutated model; here the index-updated model is written out at both places.
Every path that Go ends with a bare fallthrough returns `(m, nil)`. -/
def Update (m : Model) (msg : Msg) : Model × Cmd :=
  match msg with
  | Msg.key k =>
    if k.isSpaceKeyType = true ∧ m.state = StateBrewing then
      ({ m with state := StatePaused }, Cmd.none)
    else if k.isSpaceKeyType = true ∧ m.state = StatePaused then
      ({ m with state := StateBrewing }, Cmd.tick)
    else if k.str = KeyQuit ∨ k.str = KeyQuitAlt then
      (m, Cmd.quit)
    else if k.str = KeyStart then
      if m.state ≠ StateBrewing then
        let m1 :=
          if isFinished m = true then
            { m with timer := effectiveDuration m, state := StateIdle }
          else m
        ({ m1 with timer := effectiveDuration m1, state := StateBrewing }, Cmd.tick)
      else (m, Cmd.none)
    else if k.str = KeyPause then
      if m.state = StateBrewing then
        ({ m with state := StatePaused }, Cmd.none)
      else if m.state = StatePaused then
        ({ m with state := StateBrewing }, Cmd.tick)
      else (m, Cmd.none)
    else if k.str = KeyReset then
      ({ m with timer := effectiveDuration m, state := StateIdle }, Cmd.none)
    else if k.str = KeyUp then
      if m.state = StateIdle then
        (if ¬ m.config.CustomDuration then
          { m with
            presetIdx :=
              (m.presetIdx - 1 + m.config.Presets.length).tmod m.config.Presets.length
            timer := (currentPreset { m with
              presetIdx :=
                (m.presetIdx - 1 + m.config.Presets.length).tmod
                  m.config.Presets.length }).Duration }
        else
          { m with
            presetIdx :=
              (m.presetIdx - 1 + m.config.Presets.length).tmod
                m.config.Presets.length }, Cmd.none)
      else (m, Cmd.none)
    else if k.str = KeyDown then
      if m.state = StateIdle then
        (if ¬ m.config.CustomDuration then
          { m with
            presetIdx := (m.presetIdx + 1).tmod m.config.Presets.length
            timer := (currentPreset { m with
              presetIdx := (m.presetIdx + 1).tmod m.config.Presets.length }).Duration }
        else
          { m with
            presetIdx := (m.presetIdx + 1).tmod m.config.Presets.length }, Cmd.none)
      else (m, Cmd.none)
    else (m, Cmd.none)
  | Msg.tick =>
    if m.state = StateBrewing then
      let t := m.timer - second
      if t ≤ 0 then
        ({ m with timer := 0, state := StateFinished }, Cmd.alert)
      else
        ({ m with timer := t }, Cmd.tick)
    else (m, Cmd.none)
  | Msg.windowSize w h => ({ m with width := w, height := h }, Cmd.none)

/-- Apply a list of events in order, keeping the model (the driver loop's
fold over the serial event stream). -/
def applyEvents (m : Model) (msgs : List Msg) : Model :=
  msgs.foldl (fun s e => (Update s e).1) m

/-- Apply `n` ticks, collecting the command returned for each tick. -/
def runTicks (m : Model) : Nat → Model × List Cmd
  | 0 => (m, [])
  | n + 1 =>
    let p := runTicks m n
    let q := Update p.1 Msg.tick
    (q.1, p.2 ++ [q.2])

/-- The configuration facts the process-start path guarantees: a positive brew
time (enforced by `Validate`, whose lower bound is 30s) and the non-empty
catalog of positive-duration presets (`DefaultTeaPresets`, installed by
`NewConfig` and never replaced). -/
def GoodConfig (c : Config) : Prop :=
  0 < c.BrewTime ∧ c.Presets ≠ [] ∧ ∀ p ∈ c.Presets, 0 < p.Duration

/-- The timer invariant of the specification: the remaining duration is
non-negative, and it is zero only in the `Finished` state. -/
def TimerInv (m : Model) : Prop :=
  0 ≤ m.timer ∧ (m.timer = 0 → m.state = StateFinished)

/-- The canonical key messages for each event of the specification. -/
def startMsg : Msg := Msg.key ⟨false, KeyStart⟩

def resetMsg : Msg := Msg.key ⟨false, KeyReset⟩

def prevMsg : Msg := Msg.key ⟨false, KeyUp⟩

def nextMsg : Msg := Msg.key ⟨false, KeyDown⟩

def pauseMsg : Msg := Msg.key ⟨true, KeyPause⟩

/-! ## Branch equations for `Update`

One equation per branch of the Go switch, proved by definitional reduction
after destructuring the model and the message. -/

/-- A spacebar key type pauses an active brew. -/
theorem eq_space_brewing (m : Model) (k : KeyMsg) (hb : k.isSpaceKeyType = true)
    (hst : m.state = StateBrewing) :
    Update m (Msg.key k) = ({ m with state := StatePaused }, Cmd.none) := by
  obtain ⟨b, s⟩ := k
  obtain ⟨cfg, t, st, idx, w, ht⟩ := m
  dsimp only at hb hst
  subst hb
  subst hst
  rfl

/-- A spacebar key type resumes a paused brew. -/
theorem eq_space_paused (m : Model) (k : KeyMsg) (hb : k.isSpaceKeyType = true)
    (hst : m.state = StatePaused) :
    Update m (Msg.key k) = ({ m with state := StateBrewing }, Cmd.tick) := by
  obtain ⟨b, s⟩ := k
  obtain ⟨cfg, t, st, idx, w, ht⟩ := m
  dsimp only at hb hst
  subst hb
  subst hst
  rfl

/-- A quit key returns the quit command and an unchanged model. -/
theorem eq_quit (m : Model) (k : KeyMsg)
    (h1 : ¬(k.isSpaceKeyType = true ∧ m.state = StateBrewing))
    (h2 : ¬(k.isSpaceKeyType = true ∧ m.state = StatePaused))
    (hq : k.str = KeyQuit ∨ k.str = KeyQuitAlt) :
    Update m (Msg.key k) = (m, Cmd.quit) := by
  obtain ⟨b, s⟩ := k
  obtain ⟨cfg, t, st, idx, w, ht⟩ := m
  dsimp only at h1 h2 hq
  rcases hq with hq | hq <;> subst hq <;> cases b <;> cases st <;> first
    | rfl
    | exact (h1 ⟨rfl, rfl⟩).elim
    | exact (h2 ⟨rfl, rfl⟩).elim

/-- The start key is a no-op while brewing. -/
theorem eq_start_noop (m : Model) (k : KeyMsg)
    (h1 : ¬(k.isSpaceKeyType = true ∧ m.state = StateBrewing))
    (hq : k.str = KeyStart) (hst : m.state = StateBrewing) :
    Update m (Msg.key k) = (m, Cmd.none) := by
  obtain ⟨b, s⟩ := k
  obtain ⟨cfg, t, st, idx, w, ht⟩ := m
  dsimp only at h1 hq hst
  subst hq
  subst hst
  cases b
  · rfl
  · exact (h1 ⟨rfl, rfl⟩).elim

/-- The start key from any non-brewing state starts a fresh brew at the
effective duration. -/
theorem eq_start_go (m : Model) (k : KeyMsg)
    (h2 : ¬(k.isSpaceKeyType = true ∧ m.state = StatePaused))
    (hq : k.str = KeyStart) (hst : m.state ≠ StateBrewing) :
    Update m (Msg.key k) =
      ({ m with timer := effectiveDuration m, state := StateBrewing }, Cmd.tick) := by
  obtain ⟨b, s⟩ := k
  obtain ⟨cfg, t, st, idx, w, ht⟩ := m
  dsimp only at h2 hq hst
  subst hq
  cases b <;> cases st <;> first
    | rfl
    | exact (hst rfl).elim
    | exact (h2 ⟨rfl, rfl⟩).elim

/-- The dedicated pause key pauses an active brew (any key type). -/
theorem eq_pause_brewing (m : Model) (k : KeyMsg)
    (hq : k.str = KeyPause) (hst : m.state = StateBrewing) :
    Update m (Msg.key k) = ({ m with state := StatePaused }, Cmd.none) := by
  obtain ⟨b, s⟩ := k
  obtain ⟨cfg, t, st, idx, w, ht⟩ := m
  dsimp only at hq hst
  subst hq
  subst hst
  cases b <;> rfl

/-- The dedicated pause key resumes a paused brew (any key type). -/
theorem eq_pause_paused (m : Model) (k : KeyMsg)
    (hq : k.str = KeyPause) (hst : m.state = StatePaused) :
    Update m (Msg.key k) = ({ m with state := StateBrewing }, Cmd.tick) := by
  obtain ⟨b, s⟩ := k
  obtain ⟨cfg, t, st, idx, w, ht⟩ := m
  dsimp only at hq hst
  subst hq
  subst hst
  cases b <;> rfl

/-- The dedicated pause key does nothing outside brewing and paused. -/
theorem eq_pause_other (m : Model) (k : KeyMsg)
    (hq : k.str = KeyPause) (hst1 : m.state ≠ StateBrewing)
    (hst2 : m.state ≠ StatePaused) :
    Update m (Msg.key k) = (m, Cmd.none) := by
  obtain ⟨b, s⟩ := k
  obtain ⟨cfg, t, st, idx, w, ht⟩ := m
  dsimp only at hq hst1 hst2
  subst hq
  cases b <;> cases st <;> first
    | rfl
    | exact (hst1 rfl).elim
    | exact (hst2 rfl).elim

/-- The reset key resets to idle at the effective duration from every state. -/
theorem eq_reset (m : Model) (k : KeyMsg)
    (h1 : ¬(k.isSpaceKeyType = true ∧ m.state = StateBrewing))
    (h2 : ¬(k.isSpaceKeyType = true ∧ m.state = StatePaused))
    (hq : k.str = KeyReset) :
    Update m (Msg.key k) =
      ({ m with timer := effectiveDuration m, state := StateIdle }, Cmd.none) := by
  obtain ⟨b, s⟩ := k
  obtain ⟨cfg, t, st, idx, w, ht⟩ := m
  dsimp only at h1 h2 hq
  subst hq
  cases b <;> cases st <;> first
    | rfl
    | exact (h1 ⟨rfl, rfl⟩).elim
    | exact (h2 ⟨rfl, rfl⟩).elim

/-- The up key while idle steps the preset index back with wraparound, and
re-reads the preset duration when the custom override is inactive. -/
theorem eq_up_idle (m : Model) (k : KeyMsg)
    (hq : k.str = KeyUp) (hst : m.state = StateIdle) :
    Update m (Msg.key k) =
      ((if ¬ m.config.CustomDuration then
          { m with
            presetIdx :=
              (m.presetIdx - 1 + m.config.Presets.length).tmod m.config.Presets.length
            timer := (currentPreset { m with
              presetIdx :=
                (m.presetIdx - 1 + m.config.Presets.length).tmod
                  m.config.Presets.length }).Duration }
        else
          { m with
            presetIdx :=
              (m.presetIdx - 1 + m.config.Presets.length).tmod
                m.config.Presets.length }), Cmd.none) := by
  obtain ⟨b, s⟩ := k
  obtain ⟨cfg, t, st, idx, w, ht⟩ := m
  dsimp only at hq hst
  subst hq
  subst hst
  cases b <;> rfl

/-- The up key outside idle does nothing. -/
theorem eq_up_other (m : Model) (k : KeyMsg)
    (h1 : ¬(k.isSpaceKeyType = true ∧ m.state = StateBrewing))
    (h2 : ¬(k.isSpaceKeyType = true ∧ m.state = StatePaused))
    (hq : k.str = KeyUp) (hst : m.state ≠ StateIdle) :
    Update m (Msg.key k) = (m, Cmd.none) := by
  obtain ⟨b, s⟩ := k
  obtain ⟨cfg, t, st, idx, w, ht⟩ := m
  dsimp only at h1 h2 hq hst
  subst hq
  cases b <;> cases st <;> first
    | rfl
    | exact (hst rfl).elim
    | exact (h1 ⟨rfl, rfl⟩).elim
    | exact (h2 ⟨rfl, rfl⟩).elim

/-- The down key while idle steps the preset index forward with wraparound, and
re-reads the preset duration when the custom override is inactive. -/
theorem eq_down_idle (m : Model) (k : KeyMsg)
    (hq : k.str = KeyDown) (hst : m.state = StateIdle) :
    Update m (Msg.key k) =
      ((if ¬ m.config.CustomDuration then
          { m with
            presetIdx := (m.presetIdx + 1).tmod m.config.Presets.length
            timer := (currentPreset { m with
              presetIdx := (m.presetIdx + 1).tmod m.config.Presets.length }).Duration }
        else
          { m with
            presetIdx := (m.presetIdx + 1).tmod m.config.Presets.length }), Cmd.none) := by
  obtain ⟨b, s⟩ := k
  obtain ⟨cfg, t, st, idx, w, ht⟩ := m
  dsimp only at hq hst
  subst hq
  subst hst
  cases b <;> rfl

/-- The down key outside idle does nothing. -/
theorem eq_down_other (m : Model) (k : KeyMsg)
    (h1 : ¬(k.isSpaceKeyType = true ∧ m.state = StateBrewing))
    (h2 : ¬(k.isSpaceKeyType = true ∧ m.state = StatePaused))
    (hq : k.str = KeyDown) (hst : m.state ≠ StateIdle) :
    Update m (Msg.key k) = (m, Cmd.none) := by
  obtain ⟨b, s⟩ := k
  obtain ⟨cfg, t, st, idx, w, ht⟩ := m
  dsimp only at h1 h2 hq hst
  subst hq
  cases b <;> cases st <;> first
    | rfl
    | exact (hst rfl).elim
    | exact (h1 ⟨rfl, rfl⟩).elim
    | exact (h2 ⟨rfl, rfl⟩).elim

/-- A key matching no case of the switch leaves the model unchanged. -/
theorem eq_key_other (m : Model) (k : KeyMsg)
    (h1 : ¬(k.isSpaceKeyType = true ∧ m.state = StateBrewing))
    (h2 : ¬(k.isSpaceKeyType = true ∧ m.state = StatePaused))
    (hq : ¬(k.str = KeyQuit ∨ k.str = KeyQuitAlt))
    (hs : ¬k.str = KeyStart) (hp : ¬k.str = KeyPause) (hr : ¬k.str = KeyReset)
    (hu : ¬k.str = KeyUp) (hd : ¬k.str = KeyDown) :
    Update m (Msg.key k) = (m, Cmd.none) := by
  simp only [Update]
  rw [if_neg h1, if_neg h2, if_neg hq, if_neg hs, if_neg hp, if_neg hr, if_neg hu,
    if_neg hd]

/-- A tick while brewing subtracts one second, finishing with the alert when
the result is not positive, else continuing with a rescheduled tick. -/
theorem eq_tick_brewing (m : Model) (hst : m.state = StateBrewing) :
    Update m Msg.tick =
      (if m.timer - second ≤ 0 then
        ({ m with timer := 0, state := StateFinished }, Cmd.alert)
      else
        ({ m with timer := m.timer - second }, Cmd.tick)) := by
  obtain ⟨cfg, t, st, idx, w, ht⟩ := m
  dsimp only at hst
  subst hst
  rfl

/-- A tick outside brewing is ignored. -/
theorem eq_tick_other (m : Model) (hst : m.state ≠ StateBrewing) :
    Update m Msg.tick = (m, Cmd.none) := by
  obtain ⟨cfg, t, st, idx, w, ht⟩ := m
  dsimp only at hst
  cases st <;> first
    | rfl
    | exact (hst rfl).elim

/-- A window-size message only updates the viewport fields. -/
theorem eq_windowSize (m : Model) (w h : Int) :
    Update m (Msg.windowSize w h) = ({ m with width := w, height := h }, Cmd.none) := rfl

/-! ## Invariant machinery -/

/-- The bounds-checked preset lookup always returns a member of a non-empty
catalog. -/
theorem currentPreset_mem (m : Model) (h : m.config.Presets ≠ []) :
    currentPreset m ∈ m.config.Presets := by
  unfold currentPreset
  split
  · next hin =>
    obtain ⟨h0, h1⟩ := hin
    have hlt : m.presetIdx.toNat < m.config.Presets.length := by omega
    rw [List.getD_eq_getElem _ _ hlt]
    exact List.getElem_mem hlt
  · have hlt : 0 < m.config.Presets.length := List.length_pos.mpr h
    rw [List.getD_eq_getElem _ _ hlt]
    exact List.getElem_mem hlt

/-- With a good configuration the selected preset's duration is positive. -/
theorem currentPreset_pos (m : Model) (hne : m.config.Presets ≠ [])
    (hp : ∀ p ∈ m.config.Presets, 0 < p.Duration) :
    0 < (currentPreset m).Duration :=
  hp _ (currentPreset_mem m hne)

/-- With a good configuration the effective duration is positive. -/
theorem effectiveDuration_pos (m : Model) (hc : GoodConfig m.config) :
    0 < effectiveDuration m := by
  obtain ⟨hb, hne, hp⟩ := hc
  unfold effectiveDuration
  split
  · exact hb
  · exact currentPreset_pos m hne hp

/-- The update function never changes the configuration. -/
theorem update_config (m : Model) (msg : Msg) : (Update m msg).1.config = m.config := by
  cases msg with
  | key k =>
    by_cases h1 : k.isSpaceKeyType = true ∧ m.state = StateBrewing
    · rw [eq_space_brewing m k h1.1 h1.2]
    by_cases h2 : k.isSpaceKeyType = true ∧ m.state = StatePaused
    · rw [eq_space_paused m k h2.1 h2.2]
    by_cases hq : k.str = KeyQuit ∨ k.str = KeyQuitAlt
    · rw [eq_quit m k h1 h2 hq]
    by_cases hs : k.str = KeyStart
    · by_cases hbr : m.state = StateBrewing
      · rw [eq_start_noop m k h1 hs hbr]
      · rw [eq_start_go m k h2 hs hbr]
    by_cases hpk : k.str = KeyPause
    · by_cases hbr : m.state = StateBrewing
      · rw [eq_pause_brewing m k hpk hbr]
      by_cases hpa : m.state = StatePaused
      · rw [eq_pause_paused m k hpk hpa]
      · rw [eq_pause_other m k hpk hbr hpa]
    by_cases hr : k.str = KeyReset
    · rw [eq_reset m k h1 h2 hr]
    by_cases hu : k.str = KeyUp
    · by_cases hid : m.state = StateIdle
      · rw [eq_up_idle m k hu hid]
        split_ifs <;> rfl
      · rw [eq_up_other m k h1 h2 hu hid]
    by_cases hd : k.str = KeyDown
    · by_cases hid : m.state = StateIdle
      · rw [eq_down_idle m k hd hid]
        split_ifs <;> rfl
      · rw [eq_down_other m k h1 h2 hd hid]
    rw [eq_key_other m k h1 h2 hq hs hpk hr hu hd]
  | tick =>
    by_cases hbr : m.state = StateBrewing
    · rw [eq_tick_brewing m hbr]
      split_ifs <;> rfl
    · rw [eq_tick_other m hbr]
  | windowSize w h => rw [eq_windowSize]

/-- One step of the state machine preserves the timer invariant under a good
configuration. -/
theorem update_preserves_inv (m : Model) (msg : Msg) (hc : GoodConfig m.config)
    (h : TimerInv m) : TimerInv (Update m msg).1 := by
  obtain ⟨h0, hz⟩ := h
  have hne : m.config.Presets ≠ [] := hc.2.1
  have hp : ∀ p ∈ m.config.Presets, 0 < p.Duration := hc.2.2
  cases msg with
  | key k =>
    by_cases h1 : k.isSpaceKeyType = true ∧ m.state = StateBrewing
    · rw [eq_space_brewing m k h1.1 h1.2]
      exact ⟨h0, fun ht => TimerState.noConfusion (h1.2.symm.trans (hz ht))⟩
    by_cases h2 : k.isSpaceKeyType = true ∧ m.state = StatePaused
    · rw [eq_space_paused m k h2.1 h2.2]
      exact ⟨h0, fun ht => TimerState.noConfusion (h2.2.symm.trans (hz ht))⟩
    by_cases hq : k.str = KeyQuit ∨ k.str = KeyQuitAlt
    · rw [eq_quit m k h1 h2 hq]
      exact ⟨h0, hz⟩
    by_cases hs : k.str = KeyStart
    · by_cases hbr : m.state = StateBrewing
      · rw [eq_start_noop m k h1 hs hbr]
        exact ⟨h0, hz⟩
      · rw [eq_start_go m k h2 hs hbr]
        have hpos : 0 < effectiveDuration m := effectiveDuration_pos m hc
        exact ⟨hpos.le, fun ht => absurd ht hpos.ne'⟩
    by_cases hpk : k.str = KeyPause
    · by_cases hbr : m.state = StateBrewing
      · rw [eq_pause_brewing m k hpk hbr]
        exact ⟨h0, fun ht => TimerState.noConfusion (hbr.symm.trans (hz ht))⟩
      by_cases hpa : m.state = StatePaused
      · rw [eq_pause_paused m k hpk hpa]
        exact ⟨h0, fun ht => TimerState.noConfusion (hpa.symm.trans (hz ht))⟩
      · rw [eq_pause_other m k hpk hbr hpa]
        exact ⟨h0, hz⟩
    by_cases hr : k.str = KeyReset
    · rw [eq_reset m k h1 h2 hr]
      have hpos : 0 < effectiveDuration m := effectiveDuration_pos m hc
      exact ⟨hpos.le, fun ht => absurd ht hpos.ne'⟩
    by_cases hu : k.str = KeyUp
    · by_cases hid : m.state = StateIdle
      · rw [eq_up_idle m k hu hid]
        split_ifs with hcu
        · exact ⟨h0, fun ht => TimerState.noConfusion (hid.symm.trans (hz ht))⟩
        · have hpos := currentPreset_pos
            { m with presetIdx :=
                (m.presetIdx - 1 + m.config.Presets.length).tmod m.config.Presets.length }
            hne hp
          exact ⟨hpos.le, fun ht => absurd ht hpos.ne'⟩
      · rw [eq_up_other m k h1 h2 hu hid]
        exact ⟨h0, hz⟩
    by_cases hd : k.str = KeyDown
    · by_cases hid : m.state = StateIdle
      · rw [eq_down_idle m k hd hid]
        split_ifs with hcu
        · exact ⟨h0, fun ht => TimerState.noConfusion (hid.symm.trans (hz ht))⟩
        · have hpos := currentPreset_pos
            { m with presetIdx := (m.presetIdx + 1).tmod m.config.Presets.length }
            hne hp
          exact ⟨hpos.le, fun ht => absurd ht hpos.ne'⟩
      · rw [eq_down_other m k h1 h2 hd hid]
        exact ⟨h0, hz⟩
    rw [eq_key_other m k h1 h2 hq hs hpk hr hu hd]
    exact ⟨h0, hz⟩
  | tick =>
    by_cases hbr : m.state = StateBrewing
    · rw [eq_tick_brewing m hbr]
      split_ifs with hle
      · exact ⟨le_refl 0, fun _ => rfl⟩
      · have hpos : 0 < m.timer - second := not_le.mp hle
        exact ⟨hpos.le, fun ht => absurd ht hpos.ne'⟩
    · rw [eq_tick_other m hbr]
      exact ⟨h0, hz⟩
  | windowSize w h => exact ⟨h0, hz⟩

/-- The timer invariant holds after any sequence of events from an invariant
state with a good configuration. -/
theorem applyEvents_inv (msgs : List Msg) (m : Model) (hc : GoodConfig m.config)
    (h : TimerInv m) : TimerInv (applyEvents m msgs) := by
  induction msgs generalizing m with
  | nil => exact h
  | cons e rest ih =>
    have hc2 : GoodConfig (Update m e).1.config := by
      rw [update_config]
      exact hc
    exact ih (Update m e).1 hc2 (update_preserves_inv m e hc h)

/-- A configuration accepted by `Validate` has a positive brew time. -/
theorem validate_brewTime_pos (cfg : Config) (hv : Validate cfg = Except.ok ()) :
    0 < cfg.BrewTime := by
  unfold Validate at hv
  split_ifs at hv with hv1 hv2
  have h30 : MinBrewTime ≤ cfg.BrewTime := not_lt.mp hv1
  have : (0 : Int) < MinBrewTime := by decide
  linarith

/-! ## Claims -/

/-- C1: for every sequence of events applied to the initial session (built
from a validated configuration carrying the default preset catalog), the
remaining duration is non-negative after every transition, and whenever it is
exactly 0 the state is `Finished` on that same transition. -/
theorem remaining_nonneg_and_zero_is_finished (cfg : Config) (msgs : List Msg)
    (hv : Validate cfg = Except.ok ()) (hps : cfg.Presets = DefaultTeaPresets) :
    0 ≤ (applyEvents (initialModel cfg) msgs).timer ∧
      ((applyEvents (initialModel cfg) msgs).timer = 0 →
        (applyEvents (initialModel cfg) msgs).state = StateFinished) := by
  have hb : 0 < cfg.BrewTime := validate_brewTime_pos cfg hv
  have hgc : GoodConfig cfg := by
    refine ⟨hb, ?_, ?_⟩
    · rw [hps]
      decide
    · rw [hps]
      decide
  have hinv : TimerInv (initialModel cfg) := ⟨hb.le, fun ht => absurd ht hb.ne'⟩
  exact applyEvents_inv msgs (initialModel cfg) hgc hinv

/-- Witness for C1 at the default configuration with a start and one tick. -/
theorem remaining_nonneg_and_zero_is_finished_witness :
    Validate NewConfig = Except.ok () ∧ NewConfig.Presets = DefaultTeaPresets ∧
      (0 ≤ (applyEvents (initialModel NewConfig) [startMsg, Msg.tick]).timer ∧
        ((applyEvents (initialModel NewConfig) [startMsg, Msg.tick]).timer = 0 →
          (applyEvents (initialModel NewConfig) [startMsg, Msg.tick]).state =
            StateFinished)) :=
  ⟨rfl, rfl,
    remaining_nonneg_and_zero_is_finished NewConfig [startMsg, Msg.tick] rfl rfl⟩

set_option maxRecDepth 10000 in
/-- C2: a tick while brewing subtracts exactly one second clamped at 0; a zero
result finishes with the alert effect exactly then, a positive result stays
brewing with a rescheduled tick. Concretely, a brew started at 240 seconds
from the default configuration reaches `Finished` with remaining 0 on the
240th tick, and of the 240 tick effects exactly one — the last — is the
completion alert. -/
theorem tick_decrements_and_completes :
    (∀ m : Model, m.state = StateBrewing →
      (Update m Msg.tick).1.timer = max (m.timer - second) 0 ∧
        (max (m.timer - second) 0 = 0 →
          (Update m Msg.tick).1.state = StateFinished ∧
            (Update m Msg.tick).2 = Cmd.alert) ∧
        (max (m.timer - second) 0 ≠ 0 →
          (Update m Msg.tick).1.state = StateBrewing ∧
            (Update m Msg.tick).2 = Cmd.tick)) ∧
    ((Update (initialModel NewConfig) startMsg).1.state = StateBrewing ∧
      (Update (initialModel NewConfig) startMsg).1.timer = 240 * second ∧
      (runTicks (Update (initialModel NewConfig) startMsg).1 240).1.state =
        StateFinished ∧
      (runTicks (Update (initialModel NewConfig) startMsg).1 240).1.timer = 0 ∧
      (runTicks (Update (initialModel NewConfig) startMsg).1 240).2.length = 240 ∧
      (runTicks (Update (initialModel NewConfig) startMsg).1 240).2.count Cmd.alert
        = 1 ∧
      (runTicks (Update (initialModel NewConfig) startMsg).1 240).2.getLast? =
        some Cmd.alert) := by
  constructor
  · intro m hst
    rw [eq_tick_brewing m hst]
    split_ifs with hle
    · exact ⟨(max_eq_right hle).symm, fun _ => ⟨rfl, rfl⟩,
        fun hne => absurd (max_eq_right hle) hne⟩
    · have hpos : 0 ≤ m.timer - second := (not_le.mp hle).le
      exact ⟨(max_eq_left hpos).symm,
        fun h => absurd ((max_eq_left hpos).symm.trans h).le hle,
        fun _ => ⟨hst, rfl⟩⟩
  · decide

/-- Witness for C2 at a concrete brewing session with five seconds left. -/
theorem tick_decrements_and_completes_witness :
    ({ config := NewConfig, timer := 5 * second, state := StateBrewing, presetIdx := 0, width := 0, height := 0 } : Model).state = StateBrewing ∧
      (Update ({ config := NewConfig, timer := 5 * second, state := StateBrewing, presetIdx := 0, width := 0, height := 0 } : Model) Msg.tick).1.timer =
        max (5 * second - second) 0 :=
  ⟨rfl, (tick_decrements_and_completes.1 _ rfl).1⟩

/-- C3: `StartRequested` taken from `Idle` or from `Finished` yields `Brewing`
with remaining set to the effective duration and a tick effect — from
`Finished` the leftover remaining is never resumed — and from `Brewing` it is
a no-op producing no effect. -/
theorem startRequested_transitions :
    (∀ m : Model, m.state = StateIdle ∨ m.state = StateFinished →
      Update m startMsg =
        ({ m with timer := effectiveDuration m, state := StateBrewing }, Cmd.tick)) ∧
    (∀ m : Model, m.state = StateBrewing → Update m startMsg = (m, Cmd.none)) := by
  constructor
  · intro m h
    rcases h with h | h
    · exact eq_start_go m _ (by simp) rfl (by simp [h])
    · exact eq_start_go m _ (by simp) rfl (by simp [h])
  · intro m h
    exact eq_start_noop m _ (by simp) rfl h

/-- Witness for C3 at the initial model of the default configuration. -/
theorem startRequested_transitions_witness :
    (initialModel NewConfig).state = StateIdle ∧
      Update (initialModel NewConfig) startMsg =
        ({ initialModel NewConfig with
            timer := effectiveDuration (initialModel NewConfig)
            state := StateBrewing }, Cmd.tick) :=
  ⟨rfl, startRequested_transitions.1 (initialModel NewConfig) (Or.inl rfl)⟩

/-- C4: `ResetRequested` from every state yields `Idle` with remaining set to
the effective duration and no effect; concretely, resetting a brewing session
with 30 seconds left and the 180-second Black Tea preset selected yields
remaining 180 seconds and state `Idle`, discarding the elapsed progress. -/
theorem resetRequested_resets :
    (∀ m : Model, Update m resetMsg =
      ({ m with timer := effectiveDuration m, state := StateIdle }, Cmd.none)) ∧
    Update ({ config := NewConfig, timer := 30 * second, state := StateBrewing, presetIdx := 2, width := 0, height := 0 } : Model) resetMsg =
      ({ config := NewConfig, timer := 180 * second, state := StateIdle, presetIdx := 2, width := 0, height := 0 }, Cmd.none) := by
  constructor
  · intro m
    exact eq_reset m _ (by simp) (by simp) rfl
  · decide

/-- C10: `StartRequested` from `Paused` does not resume the paused countdown:
it discards the paused remaining value, restarts at the effective duration,
moves to `Brewing` and schedules a tick. -/
theorem startRequested_from_paused (m : Model) (h : m.state = StatePaused) :
    Update m startMsg =
      ({ m with timer := effectiveDuration m, state := StateBrewing }, Cmd.tick) :=
  eq_start_go m _ (by simp [h]) rfl (by simp [h])

/-- C5 (defect evidence): configuration parsing never sets `CustomDuration`,
whether or not the duration flag is present; with the flag present (here
`-duration 2m`) the resulting configuration still has `CustomDuration = false`
and only `BrewTime` is overwritten. -/
theorem parseFlags_never_sets_customDuration :
    (∀ c : Config, ∀ d : Option Duration,
      (ParseFlags c d).CustomDuration = c.CustomDuration) ∧
    (ParseFlags NewConfig (some (2 * minute))).CustomDuration = false ∧
    ParseFlags NewConfig (some (2 * minute)) = { NewConfig with BrewTime := 2 * minute } :=
  ⟨fun _ _ => rfl, rfl, rfl⟩

/-- C6 counterexample: the configuration with a 2-minute brew time (valid per
`Validate`, override inactive) yields an initial session whose remaining is
the 2-minute brew time, not the first preset's 4-minute duration. -/
theorem initialModel_counterexample :
    Validate { NewConfig with BrewTime := 2 * minute } = Except.ok () ∧
    ({ NewConfig with BrewTime := 2 * minute } : Config).CustomDuration = false ∧
    (initialModel { NewConfig with BrewTime := 2 * minute }).state = StateIdle ∧
    (initialModel { NewConfig with BrewTime := 2 * minute }).presetIdx = 0 ∧
    (initialModel { NewConfig with BrewTime := 2 * minute }).timer = 2 * minute ∧
    (({ NewConfig with BrewTime := 2 * minute } : Config).Presets.getD 0
      zeroPreset).Duration = 4 * minute ∧
    (initialModel { NewConfig with BrewTime := 2 * minute }).timer ≠
      (({ NewConfig with BrewTime := 2 * minute } : Config).Presets.getD 0
        zeroPreset).Duration :=
  ⟨rfl, rfl, rfl, rfl, rfl, rfl, by decide⟩

/-- C6 (amended): for every configuration, the session created at process
start has state `Idle`, preset index 0, and remaining equal to the
configuration's brew duration (`BrewTime`) — unconditionally, not derived
from the first preset. -/
theorem initialModel_spec :
    ∀ config : Config, initialModel config =
      { config := config, timer := config.BrewTime, state := StateIdle,
        presetIdx := 0, width := 0, height := 0 } :=
  fun _ => rfl

/-- Wraparound arithmetic of the preset navigation: stepping forward then
backward restores an in-range index. -/
theorem nav_wrap (idx len : Int) (h0 : 0 ≤ idx) (hlt : idx < len) :
    ((idx + 1).tmod len - 1 + len).tmod len = idx := by
  have hlen : 0 < len := lt_of_le_of_lt h0 hlt
  have e1 : (idx + 1).tmod len = (idx + 1) % len := Int.tmod_eq_emod (by omega) (by omega)
  have h1a : 0 ≤ (idx + 1) % len := Int.emod_nonneg _ (by omega)
  have h1b : (idx + 1) % len < len := Int.emod_lt_of_pos _ hlen
  have e2 : ((idx + 1) % len - 1 + len).tmod len = ((idx + 1) % len - 1 + len) % len :=
    Int.tmod_eq_emod (by omega) (by omega)
  rw [e1, e2]
  rcases lt_or_eq_of_le (by omega : idx + 1 ≤ len) with hc | hc
  · rw [Int.emod_eq_of_lt (by omega) hc]
    calc (idx + 1 - 1 + len) % len = (idx + len * 1) % len := by ring_nf
      _ = idx % len := Int.add_mul_emod_self_left idx len 1
      _ = idx := Int.emod_eq_of_lt h0 hlt
  · subst hc
    rw [Int.emod_self]
    calc ((0 : Int) - 1 + (idx + 1)) % (idx + 1) = idx % (idx + 1) := by ring_nf
      _ = idx := Int.emod_eq_of_lt h0 (by omega)

/-- C7: from an idle session in custom-duration mode whose remaining equals
the configured brew time, preset-next then preset-prev changes the index
transiently with modular wraparound and restores the session exactly, while
remaining stays equal to the custom duration after each of the two steps. -/
theorem presetNav_roundtrip_custom (m : Model) (hst : m.state = StateIdle)
    (hcu : m.config.CustomDuration = true) (h0 : 0 ≤ m.presetIdx)
    (hlt : m.presetIdx < m.config.Presets.length) (hbt : m.timer = m.config.BrewTime) :
    Update m nextMsg =
      ({ m with presetIdx := (m.presetIdx + 1).tmod m.config.Presets.length },
        Cmd.none) ∧
    (Update m nextMsg).1.timer = m.config.BrewTime ∧
    Update (Update m nextMsg).1 prevMsg = (m, Cmd.none) ∧
    (Update (Update m nextMsg).1 prevMsg).1.timer = m.config.BrewTime := by
  obtain ⟨⟨bt, se, nen, cd, kb, ps⟩, t, st, idx, w, hh⟩ := m
  dsimp only at hst hcu h0 hlt hbt
  subst hst
  subst hcu
  subst hbt
  have hQ := nav_wrap idx ps.length h0 hlt
  refine ⟨rfl, rfl, ?_, ?_⟩
  · calc
      Update (Update (Model.mk (Config.mk t se nen true kb ps) t StateIdle idx w hh)
            nextMsg).1 prevMsg
          = (Model.mk (Config.mk t se nen true kb ps) t StateIdle
              (((idx + 1).tmod ps.length - 1 + ps.length).tmod ps.length) w hh,
            Cmd.none) := rfl
      _ = (Model.mk (Config.mk t se nen true kb ps) t StateIdle idx w hh,
            Cmd.none) := by rw [hQ]
  · rfl

/-- Witness for C7 starting from the initial model of a 300-second
custom-duration configuration. -/
theorem presetNav_roundtrip_custom_witness :
    (let m0 := initialModel { NewConfig with BrewTime := 300 * second, CustomDuration := true }
     m0.state = StateIdle ∧ m0.config.CustomDuration = true ∧ 0 ≤ m0.presetIdx ∧
       m0.presetIdx < m0.config.Presets.length ∧ m0.timer = m0.config.BrewTime ∧
       Update (Update m0 nextMsg).1 prevMsg = (m0, Cmd.none)) :=
  ⟨rfl, rfl, le_refl 0, by decide, rfl,
    (presetNav_roundtrip_custom _ rfl rfl (le_refl 0) (by decide) rfl).2.2.1⟩

/-- C8: the spacebar key type and the dedicated pause key string produce
identical behavior in every state (for both strings the spacebar can report),
and from `Brewing` a double pause toggle returns to `Brewing` with remaining
unchanged, the first toggle producing no effect and the second a tick. -/
theorem pauseToggle_pair :
    (∀ m : Model, Update m (Msg.key ⟨true, KeyPause⟩) = Update m (Msg.key ⟨false, KeyPause⟩)) ∧
    (∀ m : Model, Update m (Msg.key ⟨true, " "⟩) = Update m (Msg.key ⟨false, KeyPause⟩)) ∧
    (∀ m : Model, m.state = StateBrewing →
      (Update m pauseMsg).1.state = StatePaused ∧
      (Update m pauseMsg).1.timer = m.timer ∧
      (Update m pauseMsg).2 = Cmd.none ∧
      Update (Update m pauseMsg).1 pauseMsg = (m, Cmd.tick)) := by
  refine ⟨?_, ?_, ?_⟩
  · intro m
    obtain ⟨cfg, t, st, idx, w, hh⟩ := m
    cases st <;> rfl
  · intro m
    obtain ⟨cfg, t, st, idx, w, hh⟩ := m
    cases st <;> rfl
  · intro m hst
    obtain ⟨cfg, t, st, idx, w, hh⟩ := m
    dsimp only at hst
    subst hst
    exact ⟨rfl, rfl, rfl, rfl⟩

/-- Witness for C8 at a concrete brewing session with one minute left. -/
theorem pauseToggle_pair_witness :
    (let m0 : Model := { config := NewConfig, timer := 60 * second, state := StateBrewing, presetIdx := 0, width := 0, height := 0 }
     m0.state = StateBrewing ∧ Update (Update m0 pauseMsg).1 pauseMsg = (m0, Cmd.tick)) :=
  ⟨rfl, (pauseToggle_pair.2.2 _ rfl).2.2.2⟩

/-- C9: the no-op cells of the transition table leave the session identical
and produce no effect: a tick outside `Brewing`, preset navigation outside
`Idle`, `StartRequested` while `Brewing`, and any key matching no binding. -/
theorem noop_frame :
    (∀ m : Model, m.state ≠ StateBrewing → Update m Msg.tick = (m, Cmd.none)) ∧
    (∀ m : Model, m.state ≠ StateIdle →
      Update m prevMsg = (m, Cmd.none) ∧ Update m nextMsg = (m, Cmd.none)) ∧
    (∀ m : Model, m.state = StateBrewing → Update m startMsg = (m, Cmd.none)) ∧
    (∀ m : Model, ∀ s : String,
      s ∉ ([KeyQuit, KeyQuitAlt, KeyStart, KeyPause, KeyReset, KeyUp, KeyDown] :
        List String) →
      Update m (Msg.key ⟨false, s⟩) = (m, Cmd.none)) := by
  refine ⟨?_, ?_, ?_, ?_⟩
  · intro m h
    exact eq_tick_other m h
  · intro m h
    exact ⟨eq_up_other m _ (by simp) (by simp) rfl h,
      eq_down_other m _ (by simp) (by simp) rfl h⟩
  · intro m h
    exact eq_start_noop m _ (by simp) rfl h
  · intro m s hs
    simp only [List.mem_cons, List.not_mem_nil, or_false, not_or] at hs
    obtain ⟨n1, n2, n3, n4, n5, n6, n7⟩ := hs
    exact eq_key_other m _ (by simp) (by simp) (not_or.mpr ⟨n1, n2⟩) n3 n4 n5 n6 n7

/-- Witness for C9: an idle session ignores a tick and an unbound key. -/
theorem noop_frame_witness :
    (initialModel NewConfig).state ≠ StateBrewing ∧
    Update (initialModel NewConfig) Msg.tick = (initialModel NewConfig, Cmd.none) ∧
    ("x" ∉ ([KeyQuit, KeyQuitAlt, KeyStart, KeyPause, KeyReset, KeyUp, KeyDown] :
      List String)) ∧
    Update (initialModel NewConfig) (Msg.key ⟨false, "x"⟩) =
      (initialModel NewConfig, Cmd.none) :=
  ⟨by decide, noop_frame.1 _ (by decide), by decide,
    noop_frame.2.2.2 _ "x" (by decide)⟩

/-- Witness for C10 at a concrete paused session with 37 seconds left. -/
theorem startRequested_from_paused_witness :
    ({ config := NewConfig, timer := 37 * second, state := StatePaused, presetIdx := 0, width := 0, height := 0 } : Model).state = StatePaused ∧
      Update ({ config := NewConfig, timer := 37 * second, state := StatePaused, presetIdx := 0, width := 0, height := 0 } : Model) startMsg =
        ({ config := NewConfig, timer := effectiveDuration { config := NewConfig, timer := 37 * second, state := StatePaused, presetIdx := 0, width := 0, height := 0 }, state := StateBrewing, presetIdx := 0, width := 0, height := 0 }, Cmd.tick) :=
  ⟨rfl, startRequested_from_paused _ rfl⟩

end GoBrew
